import Mathlib

/-!
Shallow embedding of the pyvslm acoustic measurement engine and proofs
about it.  The definitions translate, in order:

* `scipy.signal.sosfilt`-style cascaded second-order-section filtering and
  the stateful wrappers `WeightingFilter` (vslm/filters/weighting_filters.py)
  and `OctaveFilterBank` (vslm/filters/octave_filters.py);
* the envelope follower `TimeWeightingDetector` and the orchestrator
  `StreamProcessor.run_analysis` / `calculate_psd` (vslm/analysis_engine.py);
* the statistics reducer `calculate_leq_analysis` (vslm/leq_calculator.py).

Machine floats are modelled as real numbers; numpy/scipy library calls that
the source merely composes (`butter`, `sosfilt_zi`, `welch`) are taken as
function parameters, while the arithmetic the source itself performs is
spelled out.
-/

namespace Vslm

/-- One second-order section (biquad) row, `[b0, b1, b2, a0, a1, a2]`.
`scipy.signal.sosfilt` validates `a0 = 1`, and every designer in the source
normalizes `a0` to 1 (`zpk2sos`, `butter(output='sos')`, and the division by
`a0` in `_design_parametric_sos`), so the filtering recurrence below takes
`a0 = 1`. -/
structure Biquad where
  b0 : ℝ
  b1 : ℝ
  b2 : ℝ
  a0 : ℝ
  a1 : ℝ
  a2 : ℝ

/-- Per-section filter memory: the two direct-form-II-transposed
accumulators (one row of scipy's `zi`). -/
abbrev SectionState := ℝ × ℝ

/-- One step of `scipy.signal.sosfilt`'s direct-form-II-transposed
recurrence for a single section (with `a0 = 1`). -/
def sectionStep (s : Biquad) (st : SectionState) (x : ℝ) : ℝ × SectionState :=
  let y := s.b0 * x + st.1
  (y, (s.b1 * x + st.2 - s.a1 * y, s.b2 * x - s.a2 * y))

/-- `scipy.signal.sosfilt` restricted to one section: filter a whole chunk,
returning the output samples and the updated section state. -/
def sectionProcess (s : Biquad) (st : SectionState) : List ℝ → List ℝ × SectionState
  | [] => ([], st)
  | x :: xs =>
    let p := sectionStep s st x
    let r := sectionProcess s p.2 xs
    (p.1 :: r.1, r.2)

/-- A stateful SOS cascade: each section paired with its current state
(the `sos` array together with its `zi` rows in the Python classes). -/
abbrev Cascade := List (Biquad × SectionState)

/-- `scipy.signal.sosfilt` over a cascade carrying state: sections applied
in order, each filtering the previous section's full output. -/
def sosfilt : Cascade → List ℝ → List ℝ × Cascade
  | [], xs => (xs, [])
  | (s, st) :: rest, xs =>
    let r1 := sectionProcess s st xs
    let r2 := sosfilt rest r1.1
    (r2.1, (s, r1.2) :: r2.2)

/-- Threading a stateful per-chunk operation over a list of chunks; this is
the shape of every streaming loop in the source (weighting filter, octave
bank, detector, analysis loop). -/
def mapWithState (f : σ → α → β × σ) : σ → List α → List β × σ
  | s, [] => ([], s)
  | s, a :: as =>
    let p := f s a
    let r := mapWithState f p.2 as
    (p.1 :: r.1, r.2)

/-- `WeightingFilter` runtime state (vslm/filters/weighting_filters.py):
the `Z`/flat marker and the designed cascade with its `zi`. -/
structure WeightingFilter where
  passthrough : Bool
  cascade : Cascade

/-- `WeightingFilter.process_chunk` (weighting_filters.py lines 224-234):
passthrough for Z-weighting, else stateful `sosfilt`. -/
def WeightingFilter.process_chunk (wf : WeightingFilter) (chunk_data : List ℝ) :
    List ℝ × WeightingFilter :=
  if wf.passthrough then (chunk_data, wf)
  else
    let r := sosfilt wf.cascade chunk_data
    (r.1, { wf with cascade := r.2 })

/-! ### Basic lemmas about chunked filtering -/

theorem sectionProcess_nil (s : Biquad) (st : SectionState) :
    sectionProcess s st [] = ([], st) := rfl

theorem sectionProcess_append (s : Biquad) (st : SectionState) (xs ys : List ℝ) :
    sectionProcess s st (xs ++ ys) =
      ((sectionProcess s st xs).1 ++ (sectionProcess s (sectionProcess s st xs).2 ys).1,
        (sectionProcess s (sectionProcess s st xs).2 ys).2) := by
  induction xs generalizing st with
  | nil => simp [sectionProcess]
  | cons x xs ih => simp [sectionProcess, ih]

theorem sectionProcess_length (s : Biquad) (st : SectionState) (xs : List ℝ) :
    (sectionProcess s st xs).1.length = xs.length := by
  induction xs generalizing st with
  | nil => rfl
  | cons x xs ih => simp [sectionProcess, ih]

theorem sosfilt_nil (c : Cascade) : sosfilt c [] = ([], c) := by
  induction c with
  | nil => rfl
  | cons p rest ih =>
    obtain ⟨s, st⟩ := p
    simp [sosfilt, sectionProcess, ih]

theorem sosfilt_append (c : Cascade) (xs ys : List ℝ) :
    sosfilt c (xs ++ ys) =
      ((sosfilt c xs).1 ++ (sosfilt (sosfilt c xs).2 ys).1,
        (sosfilt (sosfilt c xs).2 ys).2) := by
  induction c generalizing xs ys with
  | nil => simp [sosfilt]
  | cons p rest ih =>
    obtain ⟨s, st⟩ := p
    simp only [sosfilt, sectionProcess_append, ih]

theorem sosfilt_length (c : Cascade) (xs : List ℝ) :
    (sosfilt c xs).1.length = xs.length := by
  induction c generalizing xs with
  | nil => rfl
  | cons p rest ih =>
    obtain ⟨s, st⟩ := p
    simp [sosfilt, ih, sectionProcess_length]

/-- Generic chunking lemma: any stateful chunk processor that splits over
append and is the identity on the empty chunk gives the same joined output
and final state whether fed chunk-by-chunk or all at once. -/
theorem mapWithState_join (g : σ → List ℝ → List ℝ × σ)
    (hnil : ∀ s, g s [] = ([], s))
    (happ : ∀ s xs ys, g s (xs ++ ys) =
      ((g s xs).1 ++ (g (g s xs).2 ys).1, (g (g s xs).2 ys).2)) :
    ∀ (chunks : List (List ℝ)) (s : σ),
      (mapWithState g s chunks).1.flatten = (g s chunks.flatten).1 ∧
        (mapWithState g s chunks).2 = (g s chunks.flatten).2 := by
  intro chunks
  induction chunks with
  | nil => intro s; simp [mapWithState, hnil]
  | cons c cs ih =>
    intro s
    have h1 := (ih (g s c).2).1
    have h2 := (ih (g s c).2).2
    constructor
    · simp [mapWithState, List.flatten, happ, h1]
    · simp [mapWithState, List.flatten, happ, h2]

theorem WeightingFilter.process_chunk_nil (wf : WeightingFilter) :
    wf.process_chunk [] = ([], wf) := by
  obtain ⟨p, c⟩ := wf
  unfold WeightingFilter.process_chunk
  by_cases h : p <;> simp [h, sosfilt_nil]

theorem WeightingFilter.process_chunk_append (wf : WeightingFilter) (xs ys : List ℝ) :
    wf.process_chunk (xs ++ ys) =
      ((wf.process_chunk xs).1 ++ ((wf.process_chunk xs).2.process_chunk ys).1,
        ((wf.process_chunk xs).2.process_chunk ys).2) := by
  unfold WeightingFilter.process_chunk
  by_cases h : wf.passthrough
  · simp [h]
  · simp [h, sosfilt_append]

/-- C2: for every filter cascade — the A/C weighting filter (including the
Z passthrough marker) or any single band's stateful cascade — feeding a
partition of a signal chunk-by-chunk through `process_chunk`, carrying the
per-section state across calls, produces exactly the same output samples
and the same final state as feeding the concatenation in one call.  (This
is the exact-arithmetic reading; the quoted 1e-12 floating-point tolerance
is the numerical shadow of this identity.) -/
theorem chunked_processing_eq_single_call :
    (∀ (wf : WeightingFilter) (chunks : List (List ℝ)),
      (mapWithState (fun w c => WeightingFilter.process_chunk w c) wf chunks).1.flatten
          = (wf.process_chunk chunks.flatten).1 ∧
        (mapWithState (fun w c => WeightingFilter.process_chunk w c) wf chunks).2
          = (wf.process_chunk chunks.flatten).2) ∧
    (∀ (band : Cascade) (chunks : List (List ℝ)),
      (mapWithState sosfilt band chunks).1.flatten = (sosfilt band chunks.flatten).1 ∧
        (mapWithState sosfilt band chunks).2 = (sosfilt band chunks.flatten).2) := by
  constructor
  · intro wf chunks
    exact mapWithState_join (fun w c => WeightingFilter.process_chunk w c)
      WeightingFilter.process_chunk_nil WeightingFilter.process_chunk_append chunks wf
  · intro band chunks
    exact mapWithState_join sosfilt sosfilt_nil sosfilt_append chunks band

/-! ### Leq/dose statistics reducer (vslm/leq_calculator.py) -/

/-- `DoseStandard` (vslm/settings_manager.py): immutable dose-standard
parameters, e.g. NIOSH 3/85/80/8. -/
structure DoseStandard where
  exchange_rate : ℝ
  criterion_level : ℝ
  threshold_level : ℝ
  shift_hours : ℝ

/-- `LeqStats` (leq_calculator.py lines 8-16); the `dose` and `history`
dictionaries are flattened into named fields. -/
structure LeqStats where
  overall : ℝ
  max : ℝ
  min : ℝ
  ln : List (ℕ × ℝ)
  dose : ℝ
  twa : ℝ
  history_time : List ℝ
  history_leq : List ℝ
  stats_block_size_ms : ℝ

/-- The percentile indices `[10, 20, ..., 90]` used for the Ln levels. -/
def lnIndices : List ℕ := [10, 20, 30, 40, 50, 60, 70, 80, 90]

/-- Arithmetic mean of a list (`np.mean`); 0 on the empty list. -/
noncomputable def listMean (xs : List ℝ) : ℝ := xs.sum / xs.length

/-- `np.max` of a nonempty list (0 on the empty list, where numpy raises). -/
def listMax : List ℝ → ℝ
  | [] => 0
  | x :: xs => xs.foldl max x

/-- `np.min` of a nonempty list (0 on the empty list, where numpy raises). -/
def listMin : List ℝ → ℝ
  | [] => 0
  | x :: xs => xs.foldl min x

/-- `np.percentile(a, p)` with the default linear interpolation: on the
ascending sort, virtual index `h = p/100 * (n-1)`; the result interpolates
between the two neighbouring order statistics (clipped at the top end). -/
noncomputable def percentile (xs : List ℝ) (p : ℝ) : ℝ :=
  let s := xs.insertionSort (fun a b => a ≤ b)
  let h := p / 100 * ((s.length : ℝ) - 1)
  let i := (⌊h⌋).toNat
  let lo := s.getD i 0
  let hi := s.getD (i + 1) lo
  lo + (h - (i : ℝ)) * (hi - lo)

/-- Python `int(x)` on a float: truncation toward zero. -/
noncomputable def pyInt (x : ℝ) : ℤ := if 0 ≤ x then ⌊x⌋ else -⌊-x⌋

/-- `calculate_leq_analysis` (leq_calculator.py lines 18-131).  A block
record enters only through `b.get('leq', -100.0)`, so a record is modelled
as its optional `leq` field.  numpy reshape row `i` of the trimmed
mean-square array is `(drop (i * bpi)).take bpi` of the full array, since
row `i` ends at index `(i+1)*bpi ≤ n_intervals*bpi`. -/
noncomputable def calculate_leq_analysis (block_results : List (Option ℝ))
    (stats_block_ms integration_time_s : ℝ) (dose_params : DoseStandard)
    (ref_pressure : ℝ) : LeqStats :=
  if block_results = [] then
    { overall := -100, max := -100, min := -100
      ln := lnIndices.map (fun n => (n, -100))
      dose := 0, twa := 0
      history_time := [], history_leq := []
      stats_block_size_ms := stats_block_ms }
  else
    let raw_db := block_results.map (fun b => b.getD (-100))
    let raw_pressure_sq := raw_db.map (fun L => (10 : ℝ) ^ (L / 10) * ref_pressure ^ 2)
    let overall_msq := listMean raw_pressure_sq
    let overall_leq := 10 * Real.logb 10 (overall_msq / ref_pressure ^ 2 + 1e-30)
    let q := dose_params.exchange_rate / Real.logb 10 2
    let Tn := dose_params.shift_hours * 60
    let dt := stats_block_ms / 1000
    let dose_db := raw_db.filter (fun L => dose_params.threshold_level < L)
    let dose_twa : ℝ × ℝ :=
      if dose_db = [] then (0, 0)
      else
        let accumulated := (dose_db.map (fun L =>
          dt * (10 : ℝ) ^ ((L - dose_params.criterion_level) / q))).sum
        let target_seconds := Tn * 60
        let dose_percentage := 100 * (accumulated / target_seconds)
        (dose_percentage,
          if 0 < dose_percentage then
            dose_params.criterion_level + q * Real.logb 10 (dose_percentage / 100)
          else 0)
    let blocks_per_interval :=
      Max.max 1 (pyInt (integration_time_s / (stats_block_ms / 1000))).toNat
    let n_total := raw_pressure_sq.length
    let n_intervals := n_total / blocks_per_interval
    { overall := overall_leq
      max := listMax raw_db
      min := listMin raw_db
      ln := lnIndices.map (fun n => (n, percentile raw_db (100 - (n : ℝ))))
      dose := dose_twa.1, twa := dose_twa.2
      history_time := (List.range n_intervals).map (fun i : ℕ => (i : ℝ) * integration_time_s)
      history_leq := (List.range n_intervals).map (fun i : ℕ =>
        10 * Real.logb 10 (listMean ((raw_pressure_sq.drop (i * blocks_per_interval)).take
          blocks_per_interval) / ref_pressure ^ 2 + 1e-30))
      stats_block_size_ms := stats_block_ms }

/-- C9: on an empty block sequence `calculate_leq_analysis` returns
sentinel statistics: overall, max and min −100 dB, every percentile L10
through L90 equal to −100 dB, dose and TWA 0, and an empty time history. -/
theorem empty_blocks_sentinel (stats_block_ms integration_time_s : ℝ)
    (dose_params : DoseStandard) (ref_pressure : ℝ) :
    calculate_leq_analysis [] stats_block_ms integration_time_s dose_params ref_pressure =
      { overall := -100, max := -100, min := -100
        ln := lnIndices.map (fun n => (n, -100))
        dose := 0, twa := 0
        history_time := [], history_leq := []
        stats_block_size_ms := stats_block_ms } ∧
      ∀ p ∈ (calculate_leq_analysis [] stats_block_ms integration_time_s dose_params
          ref_pressure).ln, p.2 = -100 := by
  have h : calculate_leq_analysis [] stats_block_ms integration_time_s dose_params
      ref_pressure =
      { overall := -100, max := -100, min := -100
        ln := lnIndices.map (fun n => (n, -100))
        dose := 0, twa := 0
        history_time := [], history_leq := []
        stats_block_size_ms := stats_block_ms } := by
    simp [calculate_leq_analysis]
  refine ⟨h, ?_⟩
  intro p hp
  rw [h] at hp
  obtain ⟨n, _, rfl⟩ := List.mem_map.1 hp
  rfl

/-- C1: for a non-empty block sequence, with `q = er/log10 2`, exactly the
blocks whose level strictly exceeds the threshold contribute
`dt * 10^((L - cl)/q)` seconds each (`dt = stats_block_ms/1000`);
`dose = 100 * accumulated / (shift_hours * 3600)`;
`twa = cl + q * log10(dose/100)` when the dose is positive and 0
otherwise; and if every level is at or below the threshold the dose is
exactly 0. -/
theorem dose_twa_spec (block_results : List (Option ℝ))
    (stats_block_ms integration_time_s : ℝ) (dose_params : DoseStandard)
    (ref_pressure : ℝ) (hne : block_results ≠ []) :
    (calculate_leq_analysis block_results stats_block_ms integration_time_s dose_params
        ref_pressure).dose =
      100 * (((block_results.map (fun b => b.getD (-100))).filter
          (fun L => dose_params.threshold_level < L)).map
          (fun L => stats_block_ms / 1000 *
            (10 : ℝ) ^ ((L - dose_params.criterion_level) /
              (dose_params.exchange_rate / Real.logb 10 2)))).sum /
        (dose_params.shift_hours * 3600) ∧
    (calculate_leq_analysis block_results stats_block_ms integration_time_s dose_params
        ref_pressure).twa =
      (if 0 < (calculate_leq_analysis block_results stats_block_ms integration_time_s
          dose_params ref_pressure).dose then
        dose_params.criterion_level + dose_params.exchange_rate / Real.logb 10 2 *
          Real.logb 10 ((calculate_leq_analysis block_results stats_block_ms
            integration_time_s dose_params ref_pressure).dose / 100)
      else 0) ∧
    ((∀ L ∈ block_results.map (fun b => b.getD (-100)),
        L ≤ dose_params.threshold_level) →
      (calculate_leq_analysis block_results stats_block_ms integration_time_s dose_params
        ref_pressure).dose = 0) := by
  have hdose : (calculate_leq_analysis block_results stats_block_ms integration_time_s
      dose_params ref_pressure).dose =
      100 * (((block_results.map (fun b => b.getD (-100))).filter
          (fun L => dose_params.threshold_level < L)).map
          (fun L => stats_block_ms / 1000 *
            (10 : ℝ) ^ ((L - dose_params.criterion_level) /
              (dose_params.exchange_rate / Real.logb 10 2)))).sum /
        (dose_params.shift_hours * 3600) := by
    unfold calculate_leq_analysis
    rw [if_neg hne]
    by_cases hd : (block_results.map (fun b => b.getD (-100))).filter
        (fun L => dose_params.threshold_level < L) = []
    · simp [hd]
    · simp only [hd, if_neg hd, reduceIte]
      rw [show dose_params.shift_hours * 60 * 60 = dose_params.shift_hours * 3600 by ring]
      rw [mul_div_assoc]
  have htwa : (calculate_leq_analysis block_results stats_block_ms integration_time_s
      dose_params ref_pressure).twa =
      (if 0 < (calculate_leq_analysis block_results stats_block_ms integration_time_s
          dose_params ref_pressure).dose then
        dose_params.criterion_level + dose_params.exchange_rate / Real.logb 10 2 *
          Real.logb 10 ((calculate_leq_analysis block_results stats_block_ms
            integration_time_s dose_params ref_pressure).dose / 100)
      else 0) := by
    unfold calculate_leq_analysis
    rw [if_neg hne]
    by_cases hd : (block_results.map (fun b => b.getD (-100))).filter
        (fun L => dose_params.threshold_level < L) = []
    · simp [hd]
    · simp only [hd, if_neg hd, reduceIte]
  refine ⟨hdose, htwa, ?_⟩
  intro hall
  rw [hdose]
  have hfil : (block_results.map (fun b => b.getD (-100))).filter
      (fun L => dose_params.threshold_level < L) = [] := by
    rw [List.filter_eq_nil_iff]
    intro L hL
    simp only [decide_eq_true_eq, not_lt]
    exact hall L hL
  rw [hfil]
  simp

/-- C1 witness: a single block at 70 dB, below the 80 dB threshold of the
NIOSH standard, yields dose exactly 0. -/
theorem dose_twa_spec_witness :
    (calculate_leq_analysis [some (70 : ℝ)] 100 1
      ⟨3, 85, 80, 8⟩ (20e-6)).dose = 0 := by
  have h := dose_twa_spec [some (70 : ℝ)] 100 1 ⟨3, 85, 80, 8⟩ (20e-6) (by simp)
  refine h.2.2 ?_
  intro L hL
  simp only [List.map_cons, List.map_nil, List.mem_singleton] at hL
  rw [hL]
  norm_num

/-- C10: a block record that lacks a `leq` field is treated as having level
exactly −100 dB in every computed statistic: filling the missing fields
with −100 beforehand yields the identical `LeqStats`. -/
theorem missing_leq_defaults (block_results : List (Option ℝ))
    (stats_block_ms integration_time_s : ℝ) (dose_params : DoseStandard)
    (ref_pressure : ℝ) :
    calculate_leq_analysis block_results stats_block_ms integration_time_s dose_params
        ref_pressure =
      calculate_leq_analysis (block_results.map (fun b => some (b.getD (-100))))
        stats_block_ms integration_time_s dose_params ref_pressure := by
  cases block_results with
  | nil => rfl
  | cons b bs =>
    unfold calculate_leq_analysis
    rw [if_neg (by simp), if_neg (by simp)]
    simp only [List.map_map, Function.comp_def, Option.getD_some, List.length_map]

/-- Truncation toward zero and flooring agree once clamped below by 1:
for positive arguments they coincide, for negative ones both clamp to 1. -/
theorem max_one_pyInt_toNat (x : ℝ) :
    Max.max 1 (pyInt x).toNat = Max.max 1 (⌊x⌋).toNat := by
  unfold pyInt
  by_cases hx : 0 ≤ x
  · rw [if_pos hx]
  · rw [if_neg hx]
    push_neg at hx
    have h1 : ⌊x⌋ < 0 := by
      rw [Int.floor_lt]
      simpa using hx
    have h2 : (0 : ℤ) ≤ ⌊-x⌋ := by
      rw [Int.le_floor]
      simp
      linarith
    rw [Int.toNat_of_nonpos (by omega), Int.toNat_of_nonpos (by omega)]

/-- The two history arrays of `calculate_leq_analysis`, written in closed
form: range-maps over `n_total / max 1 ⌊integration_time / block_duration⌋`. -/
theorem history_fields (block_results : List (Option ℝ))
    (stats_block_ms integration_time_s : ℝ) (dose_params : DoseStandard)
    (ref_pressure : ℝ) (hne : block_results ≠ []) :
    (calculate_leq_analysis block_results stats_block_ms integration_time_s dose_params
        ref_pressure).history_time =
      (List.range (block_results.length /
          Max.max 1 (⌊integration_time_s / (stats_block_ms / 1000)⌋).toNat)).map
        (fun i : ℕ => (i : ℝ) * integration_time_s) ∧
    (calculate_leq_analysis block_results stats_block_ms integration_time_s dose_params
        ref_pressure).history_leq =
      (List.range (block_results.length /
          Max.max 1 (⌊integration_time_s / (stats_block_ms / 1000)⌋).toNat)).map
        (fun i : ℕ =>
          10 * Real.logb 10 (listMean ((((block_results.map (fun b => b.getD (-100))).map
              (fun L => (10 : ℝ) ^ (L / 10) * ref_pressure ^ 2)).drop
                (i * Max.max 1 (⌊integration_time_s / (stats_block_ms / 1000)⌋).toNat)).take
              (Max.max 1 (⌊integration_time_s / (stats_block_ms / 1000)⌋).toNat)) /
            ref_pressure ^ 2 + 1e-30)) := by
  unfold calculate_leq_analysis
  rw [if_neg hne]
  constructor <;> simp [max_one_pyInt_toNat]

/-- The history arrays have exactly
`n_total / max 1 ⌊integration_time / block_duration⌋` entries. -/
theorem history_length (block_results : List (Option ℝ))
    (stats_block_ms integration_time_s : ℝ) (dose_params : DoseStandard)
    (ref_pressure : ℝ) (hne : block_results ≠ []) :
    (calculate_leq_analysis block_results stats_block_ms integration_time_s dose_params
        ref_pressure).history_time.length =
      block_results.length /
        Max.max 1 (⌊integration_time_s / (stats_block_ms / 1000)⌋).toNat ∧
    (calculate_leq_analysis block_results stats_block_ms integration_time_s dose_params
        ref_pressure).history_leq.length =
      block_results.length /
        Max.max 1 (⌊integration_time_s / (stats_block_ms / 1000)⌋).toNat := by
  obtain ⟨h1, h2⟩ := history_fields block_results stats_block_ms integration_time_s
    dose_params ref_pressure hne
  rw [h1, h2]
  simp

/-- C7 (amended): for a non-empty block sequence, the time history
partitions the per-block mean-square values into consecutive groups of
size `bpi = max 1 ⌊integration_time / block_duration⌋`, energy-averages
each full group into one dB value timestamped `i * integration_time`,
drops the leftover blocks, and the number of history bins equals
`n_blocks / bpi` (integer division) — which is
`⌊total_block_duration / integration_time⌋` only when the integration
time is an exact multiple of the block duration, not in general. -/
theorem time_history_spec (block_results : List (Option ℝ))
    (stats_block_ms integration_time_s : ℝ) (dose_params : DoseStandard)
    (ref_pressure : ℝ) (hne : block_results ≠ []) :
    (calculate_leq_analysis block_results stats_block_ms integration_time_s dose_params
        ref_pressure).history_time.length =
      block_results.length /
        Max.max 1 (⌊integration_time_s / (stats_block_ms / 1000)⌋).toNat ∧
    (calculate_leq_analysis block_results stats_block_ms integration_time_s dose_params
        ref_pressure).history_leq.length =
      block_results.length /
        Max.max 1 (⌊integration_time_s / (stats_block_ms / 1000)⌋).toNat ∧
    (∀ i, i < block_results.length /
        Max.max 1 (⌊integration_time_s / (stats_block_ms / 1000)⌋).toNat →
      (calculate_leq_analysis block_results stats_block_ms integration_time_s dose_params
          ref_pressure).history_time.getD i 0 = (i : ℝ) * integration_time_s ∧
      (calculate_leq_analysis block_results stats_block_ms integration_time_s dose_params
          ref_pressure).history_leq.getD i 0 =
        10 * Real.logb 10 (listMean ((((block_results.map (fun b => b.getD (-100))).map
            (fun L => (10 : ℝ) ^ (L / 10) * ref_pressure ^ 2)).drop
              (i * Max.max 1 (⌊integration_time_s / (stats_block_ms / 1000)⌋).toNat)).take
            (Max.max 1 (⌊integration_time_s / (stats_block_ms / 1000)⌋).toNat)) /
          ref_pressure ^ 2 + 1e-30)) := by
  obtain ⟨hft, hfl⟩ := history_fields block_results stats_block_ms integration_time_s
    dose_params ref_pressure hne
  obtain ⟨hlt, hll⟩ := history_length block_results stats_block_ms integration_time_s
    dose_params ref_pressure hne
  refine ⟨hlt, hll, ?_⟩
  intro i hi
  constructor
  · have hi' : i < (calculate_leq_analysis block_results stats_block_ms integration_time_s
        dose_params ref_pressure).history_time.length := by rw [hlt]; exact hi
    rw [hft, List.getD_eq_getElem _ _ (by simpa using hi)]
    simp
  · have hi' : i < (calculate_leq_analysis block_results stats_block_ms integration_time_s
        dose_params ref_pressure).history_leq.length := by rw [hll]; exact hi
    rw [hfl, List.getD_eq_getElem _ _ (by simpa using hi)]
    simp

/-- C7 counterexample: a single 100 ms block aggregated at an integration
time of 0.15 s produces one history bin, while the claimed formula
`⌊total_block_duration / integration_time⌋ = ⌊0.1 / 0.15⌋` gives 0. -/
theorem time_history_bin_count_cex :
    (calculate_leq_analysis [some 90] 100 0.15 ⟨3, 85, 80, 8⟩
        (20e-6)).history_time.length ≠
      (⌊(((1 : ℕ) : ℝ) * (100 / 1000)) / 0.15⌋).toNat := by
  have h1 : (calculate_leq_analysis [some 90] 100 0.15 ⟨3, 85, 80, 8⟩
      (20e-6)).history_time.length = 1 := by
    rw [(history_length [some 90] 100 0.15 ⟨3, 85, 80, 8⟩ (20e-6) (by simp)).1]
    have hfl : ⌊(0.15 : ℝ) / (100 / 1000)⌋ = 1 := by
      rw [Int.floor_eq_iff]
      constructor <;> norm_num
    rw [hfl]
    rfl
  have h2 : ⌊(((1 : ℕ) : ℝ) * (100 / 1000)) / 0.15⌋ = 0 := by
    rw [Int.floor_eq_iff]
    constructor <;> norm_num
  rw [h1, h2]
  decide

/-- C7 witness: ten 100 ms blocks at 1 s integration — the theorem applies
and gives the first history timestamp 0. -/
theorem time_history_spec_witness :
    (calculate_leq_analysis [some (90 : ℝ)] 100 0.1 ⟨3, 85, 80, 8⟩
        (20e-6)).history_time.getD 0 0 = 0 := by
  have hb : Max.max 1 (⌊(0.1 : ℝ) / (100 / 1000)⌋).toNat = 1 := by
    have : (0.1 : ℝ) / (100 / 1000) = 1 := by norm_num
    rw [this, Int.floor_one]
    rfl
  have h := time_history_spec [some (90 : ℝ)] 100 0.1 ⟨3, 85, 80, 8⟩ (20e-6) (by simp)
  have hi : (0 : ℕ) < [some (90 : ℝ)].length /
      Max.max 1 (⌊(0.1 : ℝ) / (100 / 1000)⌋).toNat := by
    rw [hb]
    decide
  have := (h.2.2 0 hi).1
  simpa using this

/-! ### Time-weighting detector (vslm/analysis_engine.py lines 11-48) -/

/-- `ResponseSpeed` (vslm/constants.py). -/
inductive ResponseSpeed where
  | SLOW
  | FAST
  | IMPULSE

/-- `TimeWeightingDetector` instance state: sample rate, reference
pressure, the two precomputed blend coefficients and the running level. -/
structure TimeWeightingDetector where
  fs : ℝ
  ref_pressure : ℝ
  alpha_rise : ℝ
  alpha_fall : ℝ
  state : ℝ

/-- The rise time constant selected by `TimeWeightingDetector.__init__`'s
`match` (Fast 0.125 s, Impulse 0.035 s, every other mode 1.0 s). -/
def tauRise : ResponseSpeed → ℝ
  | .FAST => 0.125
  | .IMPULSE => 0.035
  | _ => 1.0

/-- The fall time constant selected by `TimeWeightingDetector.__init__`'s
`match` (Fast 0.125 s, Impulse 1.5 s, every other mode 1.0 s). -/
def tauFall : ResponseSpeed → ℝ
  | .FAST => 0.125
  | .IMPULSE => 1.5
  | _ => 1.0

/-- `TimeWeightingDetector.__init__` (analysis_engine.py lines 13-29):
level starts at 0, blend coefficients `1 - exp(-1/(fs·τ))`. -/
noncomputable def TimeWeightingDetector.init (fs : ℝ) (mode : ResponseSpeed)
    (ref_pressure : ℝ) : TimeWeightingDetector :=
  { fs := fs
    ref_pressure := ref_pressure
    alpha_rise := 1 - Real.exp (-1 / (fs * tauRise mode))
    alpha_fall := 1 - Real.exp (-1 / (fs * tauFall mode))
    state := 0 }

/-- One sample of the attack/release recurrence (`if s > current_val`
branch of `TimeWeightingDetector.process`). -/
noncomputable def detStep (a_rise a_fall cur s : ℝ) : ℝ :=
  if cur < s then (1 - a_rise) * cur + a_rise * s
  else (1 - a_fall) * cur + a_fall * s

/-- The per-sample loop of `TimeWeightingDetector.process` over the squared
samples, carrying `(current_val, max_val)`. -/
noncomputable def detLoop (a_rise a_fall : ℝ) : ℝ → ℝ → List ℝ → ℝ × ℝ
  | cur, mx, [] => (cur, mx)
  | cur, mx, s :: rest =>
    detLoop a_rise a_fall (detStep a_rise a_fall cur s)
      (if mx < detStep a_rise a_fall cur s then detStep a_rise a_fall cur s else mx) rest

/-- `TimeWeightingDetector.process` (analysis_engine.py lines 31-48):
square the chunk, run the attack/release loop from the persisted level,
store the final level and return the chunk maximum in dB. -/
noncomputable def TimeWeightingDetector.process (d : TimeWeightingDetector)
    (chunk : List ℝ) : ℝ × TimeWeightingDetector :=
  let r := detLoop d.alpha_rise d.alpha_fall d.state 0 (chunk.map (fun x => x ^ 2))
  (10 * Real.logb 10 (r.2 / d.ref_pressure ^ 2 + 1e-30), { d with state := r.1 })

/-- The sequence of level values the detector passes through while
consuming a list of squared samples, starting from level `st` — the
specification-side view of the state machine: each sample blends the level
toward the sample power with the rise coefficient when the power exceeds
the level and with the fall coefficient otherwise. -/
noncomputable def levelSeq (a_rise a_fall st : ℝ) : List ℝ → List ℝ
  | [] => []
  | s :: rest =>
    detStep a_rise a_fall st s ::
      levelSeq a_rise a_fall (detStep a_rise a_fall st s) rest

theorem ite_lt_max (a b : ℝ) : (if a < b then b else a) = Max.max a b := by
  rcases le_or_lt b a with h | h
  · rw [if_neg (not_lt.mpr h), max_eq_left h]
  · rw [if_pos h, max_eq_right h.le]

theorem detLoop_eq_levelSeq (a_rise a_fall : ℝ) (p2 : List ℝ) :
    ∀ cur mx, detLoop a_rise a_fall cur mx p2 =
      ((levelSeq a_rise a_fall cur p2).getLastD cur,
        (levelSeq a_rise a_fall cur p2).foldl Max.max mx) := by
  induction p2 with
  | nil => intro cur mx; simp [detLoop, levelSeq]
  | cons s rest ih =>
    intro cur mx
    simp only [detLoop, levelSeq]
    rw [ih, List.getLastD_cons, List.foldl_cons, ite_lt_max]

theorem getLastD_append (l1 l2 : List ℝ) (d : ℝ) :
    (l1 ++ l2).getLastD d = l2.getLastD (l1.getLastD d) := by
  induction l1 generalizing d with
  | nil => simp
  | cons a l ih => rw [List.cons_append, List.getLastD_cons, List.getLastD_cons, ih]

theorem levelSeq_append (a_rise a_fall : ℝ) (p q : List ℝ) :
    ∀ st, levelSeq a_rise a_fall st (p ++ q) =
      levelSeq a_rise a_fall st p ++
        levelSeq a_rise a_fall ((levelSeq a_rise a_fall st p).getLastD st) q := by
  induction p with
  | nil => intro st; simp [levelSeq]
  | cons s rest ih =>
    intro st
    simp only [List.cons_append, levelSeq, List.getLastD_cons, List.append_eq]
    rw [ih]

/-- C6: `TimeWeightingDetector.process` updates its single scalar level
sample-by-sample, blending toward the squared sample with
`alpha_rise = 1 - exp(-1/(fs·τ_rise))` when the sample power exceeds the
level and with `alpha_fall = 1 - exp(-1/(fs·τ_fall))` otherwise, with
`(τ_rise, τ_fall)` equal to `(0.125, 0.125)` for Fast, `(0.035, 1.5)` for
Impulse and `(1, 1)` for every other mode; it returns
`10·log10(max(level observed during the chunk)/ref_pressure² + 1e-30)`;
and the level persists across calls (processing a concatenation leaves the
detector in the same state as two successive calls). -/
theorem detector_spec :
    (∀ (fs ref_pressure : ℝ) (mode : ResponseSpeed),
      (TimeWeightingDetector.init fs mode ref_pressure).alpha_rise =
          1 - Real.exp (-1 / (fs * tauRise mode)) ∧
        (TimeWeightingDetector.init fs mode ref_pressure).alpha_fall =
          1 - Real.exp (-1 / (fs * tauFall mode)) ∧
        (TimeWeightingDetector.init fs mode ref_pressure).state = 0 ∧
        tauRise .FAST = 0.125 ∧ tauFall .FAST = 0.125 ∧
        tauRise .IMPULSE = 0.035 ∧ tauFall .IMPULSE = 1.5 ∧
        tauRise .SLOW = 1 ∧ tauFall .SLOW = 1) ∧
    (∀ (d : TimeWeightingDetector) (chunk : List ℝ),
      (d.process chunk).1 = 10 * Real.logb 10
        ((levelSeq d.alpha_rise d.alpha_fall d.state
            (chunk.map (fun x => x ^ 2))).foldl Max.max 0 / d.ref_pressure ^ 2 + 1e-30) ∧
      (d.process chunk).2.state = (levelSeq d.alpha_rise d.alpha_fall d.state
        (chunk.map (fun x => x ^ 2))).getLastD d.state) ∧
    (∀ (d : TimeWeightingDetector) (xs ys : List ℝ),
      (d.process (xs ++ ys)).2 = ((d.process xs).2.process ys).2) := by
  refine ⟨?_, ?_, ?_⟩
  · intro fs ref_pressure mode
    refine ⟨rfl, rfl, rfl, rfl, rfl, rfl, rfl, ?_, ?_⟩
    · show tauRise ResponseSpeed.SLOW = 1
      norm_num [tauRise]
    · show tauFall ResponseSpeed.SLOW = 1
      norm_num [tauFall]
  · intro d chunk
    unfold TimeWeightingDetector.process
    rw [detLoop_eq_levelSeq]
    exact ⟨rfl, rfl⟩
  · intro d xs ys
    unfold TimeWeightingDetector.process
    rw [detLoop_eq_levelSeq, detLoop_eq_levelSeq, detLoop_eq_levelSeq]
    simp only [List.map_append, levelSeq_append, getLastD_append]

/-! ### Octave/third-octave filter bank (vslm/filters/octave_filters.py) -/

/-- `BandResolution` (vslm/constants.py): `'octave'` or `'third'`. -/
inductive BandResolution where
  | octave
  | third

/-- `get_ansi_center_frequencies(resolution, base=10)` (octave_filters.py
lines 5-25): ANSI S1.11 base-10 center frequencies, `1000·10^(3x/10)` for
`x = -6..4` (octave) and `1000·10^(x/10)` for `x = -19..13` (third). -/
noncomputable def get_ansi_center_frequencies : BandResolution → List ℝ
  | .octave => (List.range 11).map
      (fun i : ℕ => 1000 * (10 : ℝ) ^ ((3 * ((i : ℝ) - 6)) / 10))
  | .third => (List.range 33).map
      (fun i : ℕ => 1000 * (10 : ℝ) ^ (((i : ℝ) - 19) / 10))

/-- The half-bandwidth ratio: `2^(1/2)` for octave bands, `2^(1/6)` for
third-octave bands (both `__init__` and `design_compliant_sos`). -/
noncomputable def bandwidth_factor : BandResolution → ℝ
  | .octave => (2 : ℝ) ^ ((1 : ℝ) / 2)
  | .third => (2 : ℝ) ^ ((1 : ℝ) / 6)

/-- `design_compliant_sos(fc, fs, resolution, order)` (octave_filters.py
lines 27-60).  `scipy.signal.butter` — an external library routine, total
for the validated band edges this function passes it — enters as the
parameter `butter` mapping (order, lower edge, upper edge) to SOS rows.
Two raising paths become `Except` errors: at `order = 0` Python's
`alpha = term ** (1.0 / (2.0 * order))` raises ZeroDivisionError in the
exponent before anything else, and the explicit ValueError fires for a
band too close to Nyquist. -/
noncomputable def design_compliant_sos (butter : ℕ → ℝ → ℝ → List Biquad)
    (fc fs : ℝ) (resolution : BandResolution) (order : ℕ) :
    Except String (List Biquad) :=
  if order = 0 then Except.error "float division by zero"
  else
  let r := bandwidth_factor resolution
  let f_lower_ansi := fc / r
  let f_upper_ansi := fc * r
  let term := (10 : ℝ) ^ ((0.05 : ℝ) / 10) - 1
  let alpha := term ^ ((1 : ℝ) / (2 * (order : ℝ)))
  let f_lower_design := f_lower_ansi * alpha
  let f_upper_design := f_upper_ansi / alpha
  let nyquist := fs / 2
  if nyquist * 0.99 ≤ f_upper_design then
    if nyquist * 0.99 ≤ f_lower_design then
      Except.error "Band is too close to Nyquist"
    else Except.ok (butter order f_lower_design (nyquist * 0.99))
  else Except.ok (butter order f_lower_design f_upper_design)

/-- One bank band: center frequency and its stateful cascade (the
`{'fc', 'sos', 'zi'}` dictionary). -/
structure OctaveBand where
  fc : ℝ
  filt : Cascade

/-- `OctaveFilterBank` runtime state: the exposed `frequencies` array and
the band list. -/
structure OctaveFilterBank where
  frequencies : List ℝ
  filters : List OctaveBand

/-- `OctaveFilterBank.__init__` (octave_filters.py lines 66-94):
`frequencies` is set to all centers below `0.95·Nyquist/r` up front; each
such center is then designed, successes appended to `filters`, failures
skipped with a printed warning.  `scipy.signal.sosfilt_zi` enters as the
parameter `sosfilt_zi`. -/
noncomputable def OctaveFilterBank.build (butter : ℕ → ℝ → ℝ → List Biquad)
    (sosfilt_zi : List Biquad → List SectionState)
    (fs : ℝ) (resolution : BandResolution) (order : ℕ) : OctaveFilterBank :=
  let all_centers := get_ansi_center_frequencies resolution
  let factor := bandwidth_factor resolution
  let cutoff_limit := fs / 2 / factor * 0.95
  let valid_centers := all_centers.filter (fun fc => fc < cutoff_limit)
  { frequencies := valid_centers
    filters := valid_centers.filterMap (fun fc =>
      match design_compliant_sos butter fc fs resolution order with
      | .ok sos => some ⟨fc, sos.zip (sosfilt_zi sos)⟩
      | .error _ => none) }

/-- `OctaveFilterBank.process_chunk` (octave_filters.py lines 117-135):
one filtered output column per band, each band's `zi` updated in place. -/
def OctaveFilterBank.process_chunk (bank : OctaveFilterBank) (chunk_data : List ℝ) :
    List (List ℝ) × OctaveFilterBank :=
  let results := bank.filters.map (fun band =>
    let r := sosfilt band.filt chunk_data
    (r.1, OctaveBand.mk band.fc r.2))
  (results.map (fun p => p.1), { bank with filters := results.map (fun p => p.2) })

theorem centers_pos (resolution : BandResolution) :
    ∀ fc ∈ get_ansi_center_frequencies resolution, 0 < fc := by
  intro fc hfc
  cases resolution <;>
    · simp only [get_ansi_center_frequencies, List.mem_map] at hfc
      obtain ⟨i, _, rfl⟩ := hfc
      positivity

theorem one_le_bandwidth_factor (resolution : BandResolution) :
    1 ≤ bandwidth_factor resolution := by
  cases resolution <;>
    · unfold bandwidth_factor
      rw [show (1 : ℝ) = (2 : ℝ) ^ (0 : ℝ) from (Real.rpow_zero 2).symm]
      rw [Real.rpow_le_rpow_left_iff one_lt_two]
      norm_num

theorem ripple_term_pos : 0 < (10 : ℝ) ^ ((0.05 : ℝ) / 10) - 1 := by
  have h : (1 : ℝ) < (10 : ℝ) ^ ((0.05 : ℝ) / 10) := by
    rw [show (1 : ℝ) = (10 : ℝ) ^ (0 : ℝ) from (Real.rpow_zero 10).symm]
    rw [Real.rpow_lt_rpow_left_iff (by norm_num)]
    norm_num
  linarith

theorem ripple_term_lt_one : (10 : ℝ) ^ ((0.05 : ℝ) / 10) - 1 < 1 := by
  have ha : (0 : ℝ) ≤ (10 : ℝ) ^ ((0.05 : ℝ) / 10) :=
    (Real.rpow_pos_of_pos (by norm_num) _).le
  have h200 : ((10 : ℝ) ^ ((0.05 : ℝ) / 10)) ^ (200 : ℕ) = 10 := by
    rw [← Real.rpow_natCast ((10 : ℝ) ^ ((0.05 : ℝ) / 10)) 200,
      ← Real.rpow_mul (by norm_num : (0 : ℝ) ≤ 10)]
    norm_num
  have hlt : ((10 : ℝ) ^ ((0.05 : ℝ) / 10)) ^ (200 : ℕ) < 2 ^ (200 : ℕ) := by
    rw [h200]
    calc (10 : ℝ) < 2 ^ (4 : ℕ) := by norm_num
    _ ≤ 2 ^ (200 : ℕ) := pow_le_pow_right₀ (by norm_num) (by norm_num)
  have := lt_of_pow_lt_pow_left₀ 200 (by norm_num : (0 : ℝ) ≤ 2) hlt
  linarith

/-- For every positive order, the design-edge widening factor
`α = (10^0.005 - 1)^(1/(2N))` lies strictly between 0 and 1. -/
theorem alpha_mem_Ioo (order : ℕ) (hord : 1 ≤ order) :
    0 < ((10 : ℝ) ^ ((0.05 : ℝ) / 10) - 1) ^ ((1 : ℝ) / (2 * (order : ℝ))) ∧
      ((10 : ℝ) ^ ((0.05 : ℝ) / 10) - 1) ^ ((1 : ℝ) / (2 * (order : ℝ))) < 1 := by
  have hexp : 0 < (1 : ℝ) / (2 * (order : ℝ)) := by
    have : (1 : ℝ) ≤ (order : ℝ) := by exact_mod_cast hord
    positivity
  exact ⟨Real.rpow_pos_of_pos ripple_term_pos _,
    Real.rpow_lt_one ripple_term_pos.le ripple_term_lt_one hexp⟩

/-- Every center below the bank's `0.95·Nyquist/r` cutoff yields a
successful (non-raising) band design. -/
theorem design_compliant_sos_ok (butter : ℕ → ℝ → ℝ → List Biquad)
    (fc fs : ℝ) (resolution : BandResolution) (order : ℕ)
    (hfs : 0 < fs) (hord : 1 ≤ order) (hfc : 0 < fc)
    (hcut : fc < fs / 2 / bandwidth_factor resolution * 0.95) :
    ∃ sos, design_compliant_sos butter fc fs resolution order = Except.ok sos := by
  have hr : 1 ≤ bandwidth_factor resolution := one_le_bandwidth_factor resolution
  have hr0 : 0 < bandwidth_factor resolution := lt_of_lt_of_le one_pos hr
  obtain ⟨ha0, ha1⟩ := alpha_mem_Ioo order hord
  have hlow : fc / bandwidth_factor resolution *
      ((10 : ℝ) ^ ((0.05 : ℝ) / 10) - 1) ^ ((1 : ℝ) / (2 * (order : ℝ))) <
      fs / 2 * 0.99 := by
    have h1 : fc / bandwidth_factor resolution *
        ((10 : ℝ) ^ ((0.05 : ℝ) / 10) - 1) ^ ((1 : ℝ) / (2 * (order : ℝ))) <
        fc / bandwidth_factor resolution :=
      mul_lt_of_lt_one_right (div_pos hfc hr0) ha1
    have h2 : fc / bandwidth_factor resolution ≤ fc := div_le_self hfc.le hr
    have h3 : fs / 2 / bandwidth_factor resolution * 0.95 ≤ fs / 2 * 0.95 := by
      have := div_le_self (by positivity : (0 : ℝ) ≤ fs / 2) hr
      nlinarith
    have h4 : fs / 2 * 0.95 < fs / 2 * 0.99 := by nlinarith
    linarith
  simp only [design_compliant_sos]
  split_ifs with h0 h1 h2
  · exact absurd h0 (by omega)
  · exact absurd hlow (not_lt.mpr h2)
  · exact ⟨_, rfl⟩
  · exact ⟨_, rfl⟩

theorem filterMap_fc_map (fs : ℝ) (resolution : BandResolution) (order : ℕ)
    (butter : ℕ → ℝ → ℝ → List Biquad) (sosfilt_zi : List Biquad → List SectionState)
    (l : List ℝ)
    (hok : ∀ fc ∈ l, ∃ sos, design_compliant_sos butter fc fs resolution order =
      Except.ok sos) :
    (l.filterMap (fun fc =>
      match design_compliant_sos butter fc fs resolution order with
      | .ok sos => some (OctaveBand.mk fc (sos.zip (sosfilt_zi sos)))
      | .error _ => none)).map OctaveBand.fc = l := by
  induction l with
  | nil => rfl
  | cons fc rest ih =>
    obtain ⟨sos, hsos⟩ := hok fc (List.mem_cons_self fc rest)
    rw [List.filterMap_cons, hsos]
    simp only [List.map_cons]
    rw [ih (fun x hx => hok x (List.mem_cons_of_mem fc hx))]

/-- C5 (amended): for every bank built with a positive sample rate and
order ≥ 1 (at order 0 every band design raises, see the order-zero
counterexample), the exposed center-frequency list equals exactly the
centers of the bands whose cascade design succeeded (every listed center's
design does succeed, infeasible bands being skipped by construction), and
`process_chunk` returns one column per surviving band, each with one row
per input sample. -/
theorem octave_bank_invariants (butter : ℕ → ℝ → ℝ → List Biquad)
    (sosfilt_zi : List Biquad → List SectionState) (fs : ℝ)
    (resolution : BandResolution) (order : ℕ) (hfs : 0 < fs) (hord : 1 ≤ order) :
    ((OctaveFilterBank.build butter sosfilt_zi fs resolution order).filters.map
        OctaveBand.fc =
      (OctaveFilterBank.build butter sosfilt_zi fs resolution order).frequencies) ∧
    (∀ fc ∈ (OctaveFilterBank.build butter sosfilt_zi fs resolution order).frequencies,
      ∃ sos, design_compliant_sos butter fc fs resolution order = Except.ok sos) ∧
    (∀ chunk_data : List ℝ,
      ((OctaveFilterBank.build butter sosfilt_zi fs resolution
          order).process_chunk chunk_data).1.length =
        (OctaveFilterBank.build butter sosfilt_zi fs resolution order).filters.length ∧
      ∀ col ∈ ((OctaveFilterBank.build butter sosfilt_zi fs resolution
          order).process_chunk chunk_data).1, col.length = chunk_data.length) := by
  have hmem : ∀ fc ∈ (get_ansi_center_frequencies resolution).filter
      (fun fc => fc < fs / 2 / bandwidth_factor resolution * 0.95),
      ∃ sos, design_compliant_sos butter fc fs resolution order = Except.ok sos := by
    intro fc hfc
    rw [List.mem_filter] at hfc
    exact design_compliant_sos_ok butter fc fs resolution order hfs hord
      (centers_pos resolution fc hfc.1) (by exact_mod_cast of_decide_eq_true hfc.2)
  refine ⟨?_, ?_, ?_⟩
  · exact filterMap_fc_map fs resolution order butter sosfilt_zi _ hmem
  · intro fc hfc
    exact hmem fc hfc
  · intro chunk_data
    constructor
    · simp [OctaveFilterBank.process_chunk]
    · intro col hcol
      simp only [OctaveFilterBank.process_chunk, List.map_map, List.mem_map] at hcol
      obtain ⟨band, _, rfl⟩ := hcol
      exact sosfilt_length band.filt chunk_data

/-- C5 witness: the theorem applies at 48 kHz, octave resolution,
order 24 (with placeholder library parameters, which the statement is
uniform in). -/
theorem octave_bank_invariants_witness :
    ((OctaveFilterBank.build (fun _ _ _ => []) (fun _ => []) 48000
        BandResolution.octave 24).filters.map OctaveBand.fc =
      (OctaveFilterBank.build (fun _ _ _ => []) (fun _ => []) 48000
        BandResolution.octave 24).frequencies) :=
  (octave_bank_invariants (fun _ _ _ => []) (fun _ => []) 48000
    BandResolution.octave 24 (by norm_num) (by norm_num)).1

/-- C5 counterexample: at order 0 (a case the claim's "any order" covers)
every band design raises — Python's ZeroDivisionError computing the ripple
exponent `1/(2·order)` — so the bank's per-band try/except skips every
band and `filters` ends empty, while `frequencies`, assigned before the
design loop, still lists every center under the cutoff.  At 48 kHz octave
resolution the exposed list is therefore nonempty and differs from the
(empty) list of succeeded centers.  -/
theorem octave_bank_order_zero_cex :
    (OctaveFilterBank.build (fun _ _ _ => []) (fun _ => []) 48000
        BandResolution.octave 0).filters.map OctaveBand.fc ≠
      (OctaveFilterBank.build (fun _ _ _ => []) (fun _ => []) 48000
        BandResolution.octave 0).frequencies := by
  have hfail : ∀ fc : ℝ, design_compliant_sos (fun _ _ _ => []) fc 48000
      BandResolution.octave 0 = Except.error "float division by zero" := by
    intro fc
    simp [design_compliant_sos]
  have hfilters : (OctaveFilterBank.build (fun _ _ _ => []) (fun _ => []) 48000
      BandResolution.octave 0).filters = [] := by
    simp only [OctaveFilterBank.build]
    rw [List.filterMap_eq_nil_iff]
    intro fc _
    rw [hfail fc]
  have hc0 : (1000 * (10 : ℝ) ^ ((3 * (((0 : ℕ) : ℝ) - 6)) / 10)) ∈
      (OctaveFilterBank.build (fun _ _ _ => []) (fun _ => []) 48000
        BandResolution.octave 0).frequencies := by
    simp only [OctaveFilterBank.build]
    rw [List.mem_filter]
    refine ⟨?_, ?_⟩
    · simp only [get_ansi_center_frequencies]
      exact List.mem_map.mpr ⟨0, by simp, rfl⟩
    · apply decide_eq_true
      have ht : (10 : ℝ) ^ ((3 * (((0 : ℕ) : ℝ) - 6)) / 10) < 1 := by
        apply Real.rpow_lt_one_of_one_lt_of_neg (by norm_num)
        push_cast
        norm_num
      have ht0 : (0 : ℝ) < (10 : ℝ) ^ ((3 * (((0 : ℕ) : ℝ) - 6)) / 10) :=
        Real.rpow_pos_of_pos (by norm_num) _
      have hs : (2 : ℝ) ^ ((1 : ℝ) / 2) ≤ 2 := by
        have := Real.rpow_le_rpow_of_exponent_le
          (by norm_num : (1 : ℝ) ≤ 2) (by norm_num : (1 : ℝ) / 2 ≤ 1)
        rwa [Real.rpow_one] at this
      have hs0 : (0 : ℝ) < (2 : ℝ) ^ ((1 : ℝ) / 2) :=
        Real.rpow_pos_of_pos (by norm_num) _
      simp only [bandwidth_factor]
      rw [div_mul_eq_mul_div, lt_div_iff₀ hs0]
      nlinarith [ht, ht0, hs, hs0]
  intro h
  rw [hfilters, List.map_nil] at h
  rw [← h] at hc0
  exact absurd hc0 (List.not_mem_nil _)

/-! ### A/C weighting synthesis pieces (vslm/filters/weighting_filters.py) -/

/-- `_design_parametric_sos(f0, Q, gain_db, fs)` (weighting_filters.py
lines 45-60): the peaking-EQ correction biquad.  When the center frequency
is nonpositive or at/above Nyquist the function returns the identity
(unit-gain passthrough) section `[1, 0, 0, 1, 0, 0]` instead of raising. -/
noncomputable def design_parametric_sos (f0 Q gain_db fs : ℝ) : Biquad :=
  if f0 ≤ 0 ∨ fs / 2 ≤ f0 then ⟨1, 0, 0, 1, 0, 0⟩
  else
    let A := (10 : ℝ) ^ (gain_db / 40)
    let w0 := 2 * Real.pi * f0 / fs
    let alpha := Real.sin w0 / (2 * Q)
    let b0 := 1 + alpha * A
    let b1 := -2 * Real.cos w0
    let b2 := 1 - alpha * A
    let a0 := 1 + alpha / A
    let a1 := -2 * Real.cos w0
    let a2 := 1 - alpha / A
    ⟨b0 / a0, b1 / a0, b2 / a0, a0 / a0, a1 / a0, a2 / a0⟩

/-- The matched-z-transform pole radius for the high-frequency double pole
(`p_mzt = exp(-w4/fs)`, `w4 = 2π·f4`, in `cost_func` and the final
construction of `design_optimized_sos`). -/
noncomputable def mzt_pole (f4 fs : ℝ) : ℝ := Real.exp (-(2 * Real.pi * f4) / fs)

/-- C4 counterexample: at the supported sample rate 22050 Hz the
optimizer's initial correction center 15000 Hz lies above Nyquist
(11025 Hz), and `_design_parametric_sos` returns the identity section —
it does not raise any configuration error, so synthesis still returns a
cascade, contradicting the claim. -/
theorem low_fs_returns_identity_cex :
    design_parametric_sos 15000 1 0 22050 = ⟨1, 0, 0, 1, 0, 0⟩ := by
  unfold design_parametric_sos
  rw [if_pos (Or.inr (by norm_num))]

/-- C4 (amended): when the correction biquad's center frequency collapses
onto or above Nyquist (or is nonpositive), `_design_parametric_sos`
degenerates to the identity passthrough section rather than raising, so
cascade synthesis still returns a cascade; and the f4-derived matched-z
pole `exp(-2π·f4/fs)` lies strictly inside the unit circle for every
positive `f4` and `fs`, so it can never collapse onto or outside it. -/
theorem low_fs_design_behaviour :
    (∀ f0 Q gain_db fs : ℝ, fs / 2 ≤ f0 →
      design_parametric_sos f0 Q gain_db fs = ⟨1, 0, 0, 1, 0, 0⟩) ∧
    (∀ f4 fs : ℝ, 0 < f4 → 0 < fs → 0 < mzt_pole f4 fs ∧ mzt_pole f4 fs < 1) := by
  constructor
  · intro f0 Q gain_db fs h
    unfold design_parametric_sos
    rw [if_pos (Or.inr h)]
  · intro f4 fs hf4 hfs
    refine ⟨Real.exp_pos _, ?_⟩
    rw [show (1 : ℝ) = Real.exp 0 from Real.exp_zero.symm]
    unfold mzt_pole
    rw [Real.exp_lt_exp, neg_div]
    have hpi := Real.pi_pos
    have : 0 < 2 * Real.pi * f4 / fs := by positivity
    linarith

/-- C4 witness: the amended statement applied at `f0 = 20000`,
`fs = 30000` and at `f4 = 12194`, `fs = 48000`. -/
theorem low_fs_design_behaviour_witness :
    design_parametric_sos 20000 1 0 30000 = ⟨1, 0, 0, 1, 0, 0⟩ ∧
      mzt_pole 12194 48000 < 1 :=
  ⟨low_fs_design_behaviour.1 20000 1 0 30000 (by norm_num),
    (low_fs_design_behaviour.2 12194 48000 (by norm_num) (by norm_num)).2⟩

/-! ### Streaming analysis orchestrator (vslm/analysis_engine.py lines 195-246) -/

/-- `WeightingFilter.initialize_state` (weighting_filters.py lines 203-222):
forward pass from zero state over the seed chunk, then a backward pass over
the reversed chunk starting from the forward end state; no-op for the Z
passthrough. -/
def WeightingFilter.initialize_state (wf : WeightingFilter) (chunk_data : List ℝ) :
    WeightingFilter :=
  if wf.passthrough then wf
  else
    let zeroed := wf.cascade.map (fun p => (p.1, ((0 : ℝ), (0 : ℝ))))
    let fwd := sosfilt zeroed chunk_data
    let bwd := sosfilt fwd.2 chunk_data.reverse
    { wf with cascade := bwd.2 }

/-- `OctaveFilterBank.initialize_state` (octave_filters.py lines 101-115):
the same forward-backward seeding fanned out to every band. -/
def OctaveFilterBank.initialize_state (bank : OctaveFilterBank) (chunk_data : List ℝ) :
    OctaveFilterBank :=
  { bank with filters := bank.filters.map (fun band =>
      let zeroed := band.filt.map (fun p => (p.1, ((0 : ℝ), (0 : ℝ))))
      let fwd := sosfilt zeroed chunk_data
      let bwd := sosfilt fwd.2 chunk_data.reverse
      ⟨band.fc, bwd.2⟩) }

/-- One block's level in dB: `10·log10(mean(x²)/ref_pressure² + 1e-30)`,
the expression used for both the broadband and the per-band block Leq
(analysis_engine.py lines 233-234 and 241-242). -/
noncomputable def block_db (ref_pressure : ℝ) (xs : List ℝ) : ℝ :=
  10 * Real.logb 10 (listMean (xs.map (fun x => x ^ 2)) / ref_pressure ^ 2 + 1e-30)

/-- One emitted analysis record (`result` dict, lines 237-243). -/
structure BlockResult where
  time : ℝ
  leq : ℝ
  lp : ℝ
  bands : Option (List ℝ)
  band_freqs : Option (List ℝ)

/-- Default record used only as the out-of-range value of `List.getD`. -/
def blockDefault : BlockResult := ⟨0, 0, 0, none, none⟩

/-- The per-block loop of `run_analysis` (lines 229-246), threading the
weighting filter, the optional band bank and the detector, and the running
timestamp `current_time`. -/
noncomputable def analysisLoop (cal_factor ref_pressure step : ℝ) :
    WeightingFilter → Option OctaveFilterBank → TimeWeightingDetector → ℝ →
      List (List ℝ) → List BlockResult
  | _, _, _, _, [] => []
  | wf, bank, det, t, chunk :: rest =>
    let calibrated_chunk := chunk.map (fun x => cal_factor * x)
    let w := wf.process_chunk calibrated_chunk
    let leq_block := block_db ref_pressure w.1
    let lp := det.process w.1
    let bankStep := bank.map (fun bk =>
      let cols := bk.process_chunk calibrated_chunk
      ((cols.1.map (block_db ref_pressure), bk.frequencies), cols.2))
    { time := t, leq := leq_block, lp := lp.1
      bands := bankStep.map (fun p => p.1.1)
      band_freqs := bankStep.map (fun p => p.1.2) } ::
      analysisLoop cal_factor ref_pressure step w.2 (bankStep.map (fun p => p.2))
        lp.2 (t + step) rest

/-- `StreamProcessor.run_analysis` (lines 195-246): seed the weighting
filter, the optional bank and the detector with the first calibrated
block, rewind, then loop over all blocks starting at time 0. -/
noncomputable def run_analysis (cal_factor ref_pressure block_size_ms : ℝ)
    (wf0 : WeightingFilter) (bank0 : Option OctaveFilterBank)
    (det0 : TimeWeightingDetector) (blocks : List (List ℝ)) : List BlockResult :=
  match blocks with
  | [] => []
  | b0 :: _ =>
    let seed_data := b0.map (fun x => cal_factor * x)
    let wf1 := wf0.initialize_state seed_data
    let bank1 := bank0.map (fun bk => bk.initialize_state seed_data)
    let det1 := (det0.process seed_data).2
    analysisLoop cal_factor ref_pressure (block_size_ms / 1000) wf1 bank1 det1 0 blocks

/-- The stream of weighting-filtered blocks obtained by threading
`process_chunk` over a block list from a given starting filter state. -/
noncomputable def weightedBlocks (wf : WeightingFilter) (chunks : List (List ℝ)) :
    List (List ℝ) :=
  (mapWithState (fun w c => WeightingFilter.process_chunk w c) wf chunks).1

/-- The stream of detector outputs obtained by threading `process` over a
block list from a given starting detector state. -/
noncomputable def detOutputs (det : TimeWeightingDetector) (chunks : List (List ℝ)) :
    List ℝ :=
  (mapWithState (fun d c => TimeWeightingDetector.process d c) det chunks).1

/-- The stream of per-call column lists obtained by threading the bank's
`process_chunk` over a block list from a given starting bank state. -/
noncomputable def bankOutputs (bank : OctaveFilterBank) (chunks : List (List ℝ)) :
    List (List (List ℝ)) :=
  (mapWithState (fun b c => OctaveFilterBank.process_chunk b c) bank chunks).1

theorem weightedBlocks_cons (wf : WeightingFilter) (c : List ℝ) (cs : List (List ℝ)) :
    weightedBlocks wf (c :: cs) =
      (wf.process_chunk c).1 :: weightedBlocks (wf.process_chunk c).2 cs := rfl

theorem detOutputs_cons (det : TimeWeightingDetector) (c : List ℝ) (cs : List (List ℝ)) :
    detOutputs det (c :: cs) = (det.process c).1 :: detOutputs (det.process c).2 cs := rfl

theorem bankOutputs_cons (bank : OctaveFilterBank) (c : List ℝ) (cs : List (List ℝ)) :
    bankOutputs bank (c :: cs) =
      (bank.process_chunk c).1 :: bankOutputs (bank.process_chunk c).2 cs := rfl

theorem process_chunk_frequencies (bank : OctaveFilterBank) (c : List ℝ) :
    (bank.process_chunk c).2.frequencies = bank.frequencies := rfl

/-- The analysis loop characterized block-by-block: it emits one record per
block; timestamps advance from `t` in exact steps of `step`; `leq` is the
dB level of the corresponding weighting-filtered calibrated block; `lp` is
the corresponding threaded detector output; `bands`/`band_freqs` are
present exactly when the bank is, carrying the per-band dB levels and the
bank's center list. -/
theorem analysisLoop_spec (cal_factor ref_pressure step : ℝ) :
    ∀ (blocks : List (List ℝ)) (wf : WeightingFilter) (bank : Option OctaveFilterBank)
      (det : TimeWeightingDetector) (t : ℝ),
      (analysisLoop cal_factor ref_pressure step wf bank det t blocks).length =
        blocks.length ∧
      ∀ i, i < blocks.length →
        ((analysisLoop cal_factor ref_pressure step wf bank det t blocks).getD i
            blockDefault).time = t + i * step ∧
        ((analysisLoop cal_factor ref_pressure step wf bank det t blocks).getD i
            blockDefault).leq = block_db ref_pressure
          ((weightedBlocks wf (blocks.map (fun b => b.map (fun x =>
            cal_factor * x)))).getD i []) ∧
        ((analysisLoop cal_factor ref_pressure step wf bank det t blocks).getD i
            blockDefault).lp = (detOutputs det (weightedBlocks wf (blocks.map (fun b =>
          b.map (fun x => cal_factor * x))))).getD i 0 ∧
        ((analysisLoop cal_factor ref_pressure step wf bank det t blocks).getD i
            blockDefault).bands = bank.map (fun bk =>
          ((bankOutputs bk (blocks.map (fun b => b.map (fun x =>
            cal_factor * x)))).getD i []).map (block_db ref_pressure)) ∧
        ((analysisLoop cal_factor ref_pressure step wf bank det t blocks).getD i
            blockDefault).band_freqs = bank.map (fun bk => bk.frequencies) := by
  intro blocks
  induction blocks with
  | nil =>
    intro wf bank det t
    exact ⟨rfl, fun i hi => absurd hi (Nat.not_lt_zero i)⟩
  | cons b rest ih =>
    intro wf bank det t
    constructor
    · simp only [analysisLoop, List.length_cons]
      rw [(ih _ _ _ _).1]
    · intro i hi
      rcases i with _ | j
      · refine ⟨?_, ?_, ?_, ?_, ?_⟩
        · simp [analysisLoop]
        · simp only [analysisLoop, List.getD_cons_zero, List.map_cons,
            weightedBlocks_cons]
        · simp only [analysisLoop, List.getD_cons_zero, List.map_cons,
            weightedBlocks_cons, detOutputs_cons]
        · cases bank with
          | none => rfl
          | some bk =>
            simp only [analysisLoop, List.getD_cons_zero, List.map_cons,
              bankOutputs_cons, Option.map_some']
        · cases bank with
          | none => rfl
          | some bk => rfl
      · have hj : j < rest.length := Nat.lt_of_succ_lt_succ hi
        obtain ⟨h1, h2, h3, h4, h5⟩ := (ih _ _ _ _).2 j hj
        simp only [analysisLoop, List.getD_cons_succ, List.map_cons,
          weightedBlocks_cons, detOutputs_cons]
        refine ⟨?_, ?_, ?_, ?_, ?_⟩
        · rw [h1]
          push_cast
          ring
        · rw [h2]
        · rw [h3]
        · rw [h4]
          cases bank with
          | none => rfl
          | some bk =>
            simp only [Option.map_some', bankOutputs_cons, List.getD_cons_succ]
        · rw [h5]
          cases bank with
          | none => rfl
          | some bk => rfl

/-- C3: `run_analysis` seeds the weighting filter, the optional band bank
and the detector with the first calibrated block, then emits one
`BlockResult` per block whose `leq` is
`10·log10(mean(weighted_block²)/ref_pressure² + 1e-30)` for its
weighting-filtered calibrated block (the filter threaded from the seeded
state), whose `lp` comes from the detector threaded from the seeded state,
whose band fields are present exactly when a bank is, and whose `time`
starts at 0 and increases by exactly `block_size_ms/1000` per record. -/
theorem run_analysis_spec (cal_factor ref_pressure block_size_ms : ℝ)
    (wf0 : WeightingFilter) (bank0 : Option OctaveFilterBank)
    (det0 : TimeWeightingDetector) (blocks : List (List ℝ)) :
    (run_analysis cal_factor ref_pressure block_size_ms wf0 bank0 det0 blocks).length =
      blocks.length ∧
    ∀ i, i < blocks.length →
      ((run_analysis cal_factor ref_pressure block_size_ms wf0 bank0 det0 blocks).getD i
          blockDefault).time = i * (block_size_ms / 1000) ∧
      ((run_analysis cal_factor ref_pressure block_size_ms wf0 bank0 det0 blocks).getD i
          blockDefault).leq = block_db ref_pressure
        ((weightedBlocks
          (wf0.initialize_state ((blocks.headD []).map (fun x => cal_factor * x)))
          (blocks.map (fun b => b.map (fun x => cal_factor * x)))).getD i []) ∧
      ((run_analysis cal_factor ref_pressure block_size_ms wf0 bank0 det0 blocks).getD i
          blockDefault).lp =
        (detOutputs (det0.process ((blocks.headD []).map (fun x => cal_factor * x))).2
          (weightedBlocks
            (wf0.initialize_state ((blocks.headD []).map (fun x => cal_factor * x)))
            (blocks.map (fun b => b.map (fun x => cal_factor * x))))).getD i 0 ∧
      ((run_analysis cal_factor ref_pressure block_size_ms wf0 bank0 det0 blocks).getD i
          blockDefault).bands = bank0.map (fun bk =>
        ((bankOutputs
          (bk.initialize_state ((blocks.headD []).map (fun x => cal_factor * x)))
          (blocks.map (fun b => b.map (fun x => cal_factor * x)))).getD i []).map
          (block_db ref_pressure)) ∧
      ((run_analysis cal_factor ref_pressure block_size_ms wf0 bank0 det0 blocks).getD i
          blockDefault).band_freqs = bank0.map (fun bk => bk.frequencies) := by
  cases blocks with
  | nil => exact ⟨rfl, fun i hi => absurd hi (Nat.not_lt_zero i)⟩
  | cons b rest =>
    have h := analysisLoop_spec cal_factor ref_pressure (block_size_ms / 1000)
      (b :: rest) (wf0.initialize_state (b.map (fun x => cal_factor * x)))
      (bank0.map (fun bk => bk.initialize_state (b.map (fun x => cal_factor * x))))
      ((det0.process (b.map (fun x => cal_factor * x))).2) 0
    constructor
    · simpa only [run_analysis] using h.1
    · intro i hi
      obtain ⟨h1, h2, h3, h4, h5⟩ := h.2 i hi
      simp only [run_analysis, List.headD_cons]
      refine ⟨?_, ?_, ?_, ?_, ?_⟩
      · rw [h1, zero_add]
      · exact h2
      · exact h3
      · rw [h4]
        cases bank0 with
        | none => rfl
        | some bk => rfl
      · rw [h5]
        cases bank0 with
        | none => rfl
        | some bk => rfl

/-- C3 witness: for a one-block stream through a passthrough filter with
no bank, the theorem applies and the single record's time is 0. -/
theorem run_analysis_spec_witness :
    ((run_analysis 1 (20e-6) 100 ⟨true, []⟩ none
        (TimeWeightingDetector.init 48000 ResponseSpeed.FAST (20e-6))
        [[1]]).getD 0 blockDefault).time = 0 := by
  have h := run_analysis_spec 1 (20e-6) 100 ⟨true, []⟩ none
    (TimeWeightingDetector.init 48000 ResponseSpeed.FAST (20e-6)) [[1]]
  have := (h.2 0 (by norm_num)).1
  simpa using this

/-! ### Welch PSD (vslm/analysis_engine.py lines 76-134) -/

/-- Modelled from the spec: `get_weighting_power_response` is imported from
`filters.weighting_filters` by the analysis engine but is absent from the
sources; per the spec it returns the power response — the squared magnitude
of the weighting cascade's frequency response, here an abstract magnitude
function `Hmag` — sampled at the given frequency bins. -/
def get_weighting_power_response (Hmag : ℝ → ℝ) (freqs : List ℝ) : List ℝ :=
  freqs.map (fun f => (Hmag f) ^ 2)

/-- The terminal record yielded by `calculate_psd` (lines 127-134),
restricted to its numeric fields. -/
structure PsdRecord where
  freqs : List ℝ
  pxx : List ℝ
  nfft : ℕ

/-- Elementwise accumulation of periodograms (`pxx_sum`, lines 110-114):
the first periodogram starts the sum, later ones are added in place. -/
def vecSum : List (List ℝ) → List ℝ
  | [] => []
  | p :: ps => ps.foldl (fun acc q => List.zipWith (fun a b => a + b) acc q) p

/-- `StreamProcessor.calculate_psd` (lines 76-134).  `scipy.signal.welch` —
an external routine returning the per-chunk Welch periodogram over the
fixed frequency bins `freqs` — enters as the parameter `welch`, applied to
the calibrated chunk; chunks shorter than one segment (`nperseg = nfft`)
are skipped; with no processed chunk the data error is raised; otherwise
the chunk-averaged periodogram is multiplied bin-by-bin by the weighting
power response and yielded as the terminal record. -/
noncomputable def calculate_psd (welch : List ℝ → List ℝ) (freqs : List ℝ) (Hmag : ℝ → ℝ)
    (nfft : ℕ) (cal_factor : ℝ) (chunks : List (List ℝ)) : Except String PsdRecord :=
  let good := chunks.filter (fun c => decide (nfft ≤ c.length))
  let ps := good.map (fun c => welch (c.map (fun x => cal_factor * x)))
  if ps.isEmpty then Except.error "Data too short for specified FFT size."
  else
    Except.ok ⟨freqs,
      List.zipWith (fun p w => p * w) ((vecSum ps).map (fun v => v / (ps.length : ℝ)))
        (get_weighting_power_response Hmag freqs), nfft⟩

theorem zipWith_add_getD (a q : List ℝ) (i : ℕ) (ha : i < a.length)
    (hq : i < q.length) :
    (List.zipWith (fun x y => x + y) a q).getD i 0 = a.getD i 0 + q.getD i 0 := by
  rw [List.getD_eq_getElem _ _ (by rw [List.length_zipWith]; omega),
    List.getD_eq_getElem _ _ ha, List.getD_eq_getElem _ _ hq]
  simp

theorem foldl_zipWith_add (L i : ℕ) (hi : i < L) :
    ∀ (ps : List (List ℝ)) (acc : List ℝ), acc.length = L →
      (∀ p ∈ ps, p.length = L) →
      (ps.foldl (fun a q => List.zipWith (fun x y => x + y) a q) acc).length = L ∧
      (ps.foldl (fun a q => List.zipWith (fun x y => x + y) a q) acc).getD i 0 =
        acc.getD i 0 + (ps.map (fun p => p.getD i 0)).sum := by
  intro ps
  induction ps with
  | nil =>
    intro acc hacc _
    exact ⟨hacc, by simp⟩
  | cons p ps ih =>
    intro acc hacc hall
    have hp : p.length = L := hall p (List.mem_cons_self p ps)
    have hlen : (List.zipWith (fun x y => x + y) acc p).length = L := by
      rw [List.length_zipWith, hacc, hp, min_self]
    obtain ⟨l1, l2⟩ := ih (List.zipWith (fun x y => x + y) acc p) hlen
      (fun q hq => hall q (List.mem_cons_of_mem p hq))
    refine ⟨l1, ?_⟩
    rw [List.foldl_cons, l2,
      zipWith_add_getD acc p i (by omega) (by omega)]
    rw [List.map_cons, List.sum_cons]
    ring

theorem foldl_zipWith_length (L : ℕ) :
    ∀ (ps : List (List ℝ)) (acc : List ℝ), acc.length = L →
      (∀ p ∈ ps, p.length = L) →
      (ps.foldl (fun a q => List.zipWith (fun x y => x + y) a q) acc).length = L := by
  intro ps
  induction ps with
  | nil => intro acc hacc _; exact hacc
  | cons p ps ih =>
    intro acc hacc hall
    have hp : p.length = L := hall p (List.mem_cons_self p ps)
    rw [List.foldl_cons]
    exact ih _ (by rw [List.length_zipWith, hacc, hp, min_self])
      (fun q hq => hall q (List.mem_cons_of_mem p hq))

theorem vecSum_length (L : ℕ) (ps : List (List ℝ)) (hne : ps ≠ [])
    (hall : ∀ p ∈ ps, p.length = L) : (vecSum ps).length = L := by
  cases ps with
  | nil => exact absurd rfl hne
  | cons p ps =>
    exact foldl_zipWith_length L ps p (hall p (List.mem_cons_self p ps))
      (fun q hq => hall q (List.mem_cons_of_mem p hq))

theorem vecSum_getD (L i : ℕ) (hi : i < L) (ps : List (List ℝ)) (hne : ps ≠ [])
    (hall : ∀ p ∈ ps, p.length = L) :
    (vecSum ps).getD i 0 = (ps.map (fun p => p.getD i 0)).sum := by
  cases ps with
  | nil => exact absurd rfl hne
  | cons p ps =>
    have hp : p.length = L := hall p (List.mem_cons_self p ps)
    obtain ⟨_, l2⟩ := foldl_zipWith_add L i hi ps p hp
      (fun q hq => hall q (List.mem_cons_of_mem p hq))
    rw [vecSum, l2, List.map_cons, List.sum_cons]

/-- C8: whenever at least one chunk holds a full FFT segment, the terminal
record of `calculate_psd` carries `pxx` equal to the average over processed
chunks of the per-chunk Welch periodogram, multiplied bin-by-bin by the
power response (squared magnitude of the weighting frequency response) at
the PSD's frequency bins. -/
theorem psd_weighted_average (welch : List ℝ → List ℝ) (freqs : List ℝ)
    (Hmag : ℝ → ℝ) (nfft : ℕ) (cal_factor : ℝ) (chunks : List (List ℝ)) (L : ℕ)
    (hwl : ∀ c, (welch c).length = L) (hfl : freqs.length = L)
    (hgood : ∃ c ∈ chunks, nfft ≤ c.length) :
    ∃ record, calculate_psd welch freqs Hmag nfft cal_factor chunks =
        Except.ok record ∧
      record.freqs = freqs ∧ record.pxx.length = L ∧
      ∀ i, i < L → record.pxx.getD i 0 =
        ((chunks.filter (fun c => decide (nfft ≤ c.length))).map
            (fun c => (welch (c.map (fun x => cal_factor * x))).getD i 0)).sum /
          ((chunks.filter (fun c => decide (nfft ≤ c.length))).length : ℝ) *
          (Hmag (freqs.getD i 0)) ^ 2 := by
  obtain ⟨c0, hc0, hlen0⟩ := hgood
  have hmem : c0 ∈ chunks.filter (fun c => decide (nfft ≤ c.length)) :=
    List.mem_filter.mpr ⟨hc0, decide_eq_true hlen0⟩
  have hgne : chunks.filter (fun c => decide (nfft ≤ c.length)) ≠ [] :=
    List.ne_nil_of_mem hmem
  have hpne : (chunks.filter (fun c => decide (nfft ≤ c.length))).map
      (fun c => welch (c.map (fun x => cal_factor * x))) ≠ [] := by
    simpa using hgne
  have hempty : ((chunks.filter (fun c => decide (nfft ≤ c.length))).map
      (fun c => welch (c.map (fun x => cal_factor * x)))).isEmpty = false := by
    rw [List.isEmpty_eq_false]
    exact hpne
  have hall : ∀ p ∈ (chunks.filter (fun c => decide (nfft ≤ c.length))).map
      (fun c => welch (c.map (fun x => cal_factor * x))), p.length = L := by
    intro p hp
    obtain ⟨c, _, rfl⟩ := List.mem_map.1 hp
    exact hwl _
  have hvlen : (vecSum ((chunks.filter (fun c => decide (nfft ≤ c.length))).map
      (fun c => welch (c.map (fun x => cal_factor * x))))).length = L :=
    vecSum_length L _ hpne hall
  have hwresp : (get_weighting_power_response Hmag freqs).length = L := by
    simp only [get_weighting_power_response, List.length_map, hfl]
  have heq : calculate_psd welch freqs Hmag nfft cal_factor chunks =
      Except.ok ⟨freqs,
        List.zipWith (fun p w => p * w)
          ((vecSum ((chunks.filter (fun c => decide (nfft ≤ c.length))).map
            (fun c => welch (c.map (fun x => cal_factor * x))))).map
            (fun v => v / ((((chunks.filter (fun c => decide (nfft ≤ c.length))).map
              (fun c => welch (c.map (fun x => cal_factor * x)))).length : ℕ) : ℝ)))
          (get_weighting_power_response Hmag freqs), nfft⟩ := by
    simp only [calculate_psd, hempty, Bool.false_eq_true, if_false]
  refine ⟨_, heq, rfl, ?_, ?_⟩
  · rw [List.length_zipWith, List.length_map, hvlen, hwresp, min_self]
  · intro i hi
    have hbound : i < (List.zipWith (fun p w => p * w)
        ((vecSum ((chunks.filter (fun c => decide (nfft ≤ c.length))).map
          (fun c => welch (c.map (fun x => cal_factor * x))))).map
          (fun v => v / ((((chunks.filter (fun c => decide (nfft ≤ c.length))).map
            (fun c => welch (c.map (fun x => cal_factor * x)))).length : ℕ) : ℝ)))
        (get_weighting_power_response Hmag freqs)).length := by
      rw [List.length_zipWith, List.length_map, hvlen, hwresp, min_self]
      exact hi
    rw [List.getD_eq_getElem _ _ hbound]
    rw [List.getElem_zipWith, List.getElem_map]
    have hgv : (vecSum ((chunks.filter (fun c => decide (nfft ≤ c.length))).map
        (fun c => welch (c.map (fun x => cal_factor * x))))).get
        ⟨i, by rw [hvlen]; exact hi⟩ =
        (((chunks.filter (fun c => decide (nfft ≤ c.length))).map
          (fun c => welch (c.map (fun x => cal_factor * x)))).map
          (fun p => p.getD i 0)).sum := by
      rw [← vecSum_getD L i hi _ hpne hall,
        List.getD_eq_getElem _ _ (by rw [hvlen]; exact hi)]
      rfl
    rw [List.get_eq_getElem] at hgv
    rw [hgv, List.map_map]
    have hfx : (get_weighting_power_response Hmag freqs).get
        ⟨i, by rw [hwresp]; exact hi⟩ = (Hmag (freqs.getD i 0)) ^ 2 := by
      rw [List.get_eq_getElem]
      simp only [get_weighting_power_response]
      rw [List.getElem_map, List.getD_eq_getElem _ _ (by rw [hfl]; exact hi)]
    rw [List.get_eq_getElem] at hfx
    rw [hfx, List.length_map]
    rw [div_mul_eq_mul_div, mul_comm, mul_div_assoc, mul_comm]
    congr 1

/-- C8 witness: one processed single-sample chunk with a one-bin
periodogram — the theorem applies and yields the terminal `ok` record. -/
theorem psd_weighted_average_witness :
    ∃ record, calculate_psd (fun _ => [(1 : ℝ)]) [(100 : ℝ)] (fun _ => 1) 1 1 [[0]] =
      Except.ok record := by
  obtain ⟨record, hr, -, -, -⟩ := psd_weighted_average (fun _ => [(1 : ℝ)])
    [(100 : ℝ)] (fun _ => 1) 1 1 [[0]] 1 (fun _ => rfl) rfl
    ⟨[0], by simp, by simp⟩
  exact ⟨record, hr⟩

end Vslm
